import Mathlib

/-
Verification of the ai-stock-predictions repository against its
natural-language specification.  The Python modules are shallowly embedded:
pandas Series / DataFrames become Lean lists (with `Option` for NaN cells),
floats become rationals, dates become integers (days), and effectful code
(file cache, network download, RNG) is modelled by explicit environment
records passed to the embedded functions.
-/

namespace Common

/-- Sequence of consecutive calendar days from `s` to `e` inclusive
(pandas `pd.date_range(s, e, freq=D)` at day granularity). -/
def dateRange (s e : Int) : List Int :=
  if s ≤ e then (List.range (e - s + 1).toNat).map (fun i : Nat => s + (i : Int)) else []

/-- Embedding of numpy `linspace(a, b, n)` (endpoint included, default). -/
def np_linspace (a b : ℚ) (n : Nat) : List ℚ :=
  if n ≤ 1 then List.replicate n a
  else (List.range n).map (fun i : Nat => a + (b - a) * (i : ℚ) / ((n : ℚ) - 1))

/-- Pandas `Series.rolling(w).mean()` on a NaN-free numeric column with the
default `min_periods = w`: entry `i` is defined only once a full window of
`w` values is available. -/
def rollMeanAt (f : Nat → ℚ) (w i : Nat) : Option ℚ :=
  if i + 1 < w then none
  else some ((((List.range w).map (fun j => f (i + 1 - w + j))).sum) / w)

/-- Pandas `Series.rolling(w, min_periods=1).mean()` on a NaN-free column:
entry `i` averages the last `min (i+1) w` values. -/
def rollMeanMin1 (w : Nat) (xs : List ℚ) : List ℚ :=
  (List.range xs.length).map (fun i =>
    let win := (xs.take (i + 1)).drop (i + 1 - w)
    win.sum / win.length)

/-- Recurrence step list for pandas `ewm(span, adjust=False).mean()`. -/
def ewmAux (alpha : ℚ) : ℚ → List ℚ → List ℚ
  | _, [] => []
  | prev, x :: xs =>
      let e := alpha * x + (1 - alpha) * prev
      e :: ewmAux alpha e xs

/-- Pandas `Series.ewm(span=s, adjust=False).mean()` on a NaN-free column:
`e 0 = x 0`, `e i = α x i + (1-α) e (i-1)` with `α = 2 / (s + 1)`. -/
def ewmMean (span : Nat) : List ℚ → List ℚ
  | [] => []
  | x :: xs => x :: ewmAux (2 / (span + 1)) x xs

theorem ewmMean_length (span : Nat) (l : List ℚ) :
    (ewmMean span l).length = l.length := by
  cases l with
  | nil => rfl
  | cons x xs =>
    show (x :: ewmAux _ x xs).length = _
    simp only [List.length_cons, Nat.succ.injEq]
    induction xs generalizing x with
    | nil => rfl
    | cons y ys ih => simpa [ewmAux] using ih _

end Common

namespace TechnicalAnalysis

open Common

/-! Embedding of `technical_analysis.py`.  A price series is a
`List (Option ℚ)`; `none` is a NaN cell. -/

/-- Entry `i` of `data.diff()`: NaN at index 0 and where either operand
is NaN. -/
def deltaAt (data : List (Option ℚ)) (i : Nat) : Option ℚ :=
  if i = 0 then none
  else
    match data.getD i none, data.getD (i - 1) none with
    | some a, some b => some (a - b)
    | _, _ => none

/-- Entry `i` of `delta.where(delta > 0, 0)`: pandas `where` keeps the value
only where the condition holds, so NaN deltas (condition False) become 0. -/
def gainAt (data : List (Option ℚ)) (i : Nat) : ℚ :=
  match deltaAt data i with
  | some x => if 0 < x then x else 0
  | none => 0

/-- Entry `i` of `(-delta.where(delta < 0, 0))`. -/
def lossAt (data : List (Option ℚ)) (i : Nat) : ℚ :=
  match deltaAt data i with
  | some x => if x < 0 then -x else 0
  | none => 0

/-- Rolling mean of losses after `loss.replace(0, 1e-10)`. -/
def lossRepAt (data : List (Option ℚ)) (w i : Nat) : Option ℚ :=
  (rollMeanAt (lossAt data) w i).map (fun x => if x = 0 then 1 / 10 ^ 10 else x)

/-- Entry `i` of `rs = gain / loss`. -/
def rsAt (data : List (Option ℚ)) (w i : Nat) : Option ℚ :=
  match rollMeanAt (gainAt data) w i, lossRepAt data w i with
  | some g, some l => some (g / l)
  | _, _ => none

/-- Entry `i` of `rsi = 100 - (100 / (1 + rs))`. -/
def rsiAt (data : List (Option ℚ)) (w i : Nat) : Option ℚ :=
  (rsAt data w i).map (fun r => 100 - 100 / (1 + r))

/-- Embedding of `calculate_rsi`: all-null or short input yields an all-NaN
series over the same index; otherwise the RSI column described above. -/
def calculate_rsi (data : List (Option ℚ)) (window : Nat) : List (Option ℚ) :=
  if (∀ x ∈ data, x = none) ∨ data.length < window + 1 then
    List.replicate data.length none
  else
    (List.range data.length).map (rsiAt data window)

/-- Embedding of `calculate_macd` on a NaN-free close series (the guard for
an all-null series coincides with the empty list there).  Returns the MACD
line, signal line and histogram; a series shorter than the slow window
yields three all-NaN series over the same index. -/
def calculate_macd (data : List ℚ) (fastW slowW signalW : Nat) :
    List (Option ℚ) × List (Option ℚ) × List (Option ℚ) :=
  if data.length < slowW then
    (List.replicate data.length none, List.replicate data.length none,
     List.replicate data.length none)
  else
    let emaFast := ewmMean fastW data
    let emaSlow := ewmMean slowW data
    let macdLine := emaFast.zipWith (· - ·) emaSlow
    let signalLine := ewmMean signalW macdLine
    let histogram := macdLine.zipWith (· - ·) signalLine
    (macdLine.map some, signalLine.map some, histogram.map some)

/-- The spec sentence rendered literally ("MACD line equals the difference
of the fast-window and slow-window rolling-window means of the series"):
rolling means with full windows, NaN until a window fills. -/
def macdLineSpecRolling (data : List ℚ) (fastW slowW : Nat) : List (Option ℚ) :=
  (List.range data.length).map (fun i =>
    match rollMeanAt (fun j => data.getD j 0) fastW i,
          rollMeanAt (fun j => data.getD j 0) slowW i with
    | some a, some b => some (a - b)
    | _, _ => none)

end TechnicalAnalysis

namespace DataCollection

/-! Embedding of `data_collection.py::fetch_stock_data` with the default
`start_date = end_date = None` (so the start/end sanity check is skipped).
The CSV cache and the yfinance network call are modelled by an environment;
a frame keeps its column-name list and its parsed `Date` column (`none` is
a NaT cell), the only parts the cache/download validation inspects. -/

/-- A stock CSV frame: post-normalization column names plus the parsed
`Date` column (one entry per row, `none` = NaT). -/
structure StockFrame where
  cols : List String
  dates : List (Option Int)
deriving DecidableEq, Repr

/-- Required OHLCV columns. -/
def requiredCols : List String := ["Date", "Open", "High", "Low", "Close", "Volume"]

/-- Validation applied to a cached file: all required columns present, the
frame non-empty, and no NaN dates. -/
def cacheValidB (f : StockFrame) : Bool :=
  requiredCols.all (fun c => f.cols.contains c) && !f.dates.isEmpty
    && f.dates.all (fun d => d.isSome)

/-- Outcome of one `yf.download` call. -/
inductive DlResult where
  | ok (f : StockFrame)
  | rateLimited
  | otherError
deriving DecidableEq

/-- Trace of the download retry loop. -/
structure LoopTrace where
  data : Option StockFrame
  raised : Bool
  calls : Nat
  waits : List Nat
deriving DecidableEq, Repr

/-- The `while attempt < max_retries` download loop: a successful non-empty
download breaks with data; an empty download breaks with `None`; a
rate-limit error bumps `attempt`, sleeps `pause_secs * attempt` and
retries; any other error re-raises; falling off the loop returns `None`.
`download k` is the result of the download made at `attempt = k`. -/
def dlLoop (download : Nat → DlResult) (maxRetries pauseSecs attempt : Nat) :
    LoopTrace :=
  if _h : attempt < maxRetries then
    match download attempt with
    | .ok f => if f.dates.isEmpty then ⟨none, false, 1, []⟩ else ⟨some f, false, 1, []⟩
    | .rateLimited =>
        let rest := dlLoop download maxRetries pauseSecs (attempt + 1)
        ⟨rest.data, rest.raised, rest.calls + 1, pauseSecs * (attempt + 1) :: rest.waits⟩
    | .otherError => ⟨none, true, 1, []⟩
  else ⟨none, false, 0, []⟩
termination_by maxRetries - attempt
decreasing_by omega

/-- Post-download date processing: coerce/drop invalid dates and sort
(`dropna(subset=[Date]).sort_values(Date)`).  Column renaming to the
canonical names is abstracted: `cols` are already post-normalization. -/
def processDates (f : StockFrame) : StockFrame :=
  { cols := f.cols,
    dates := ((f.dates.filterMap id).insertionSort (fun a b => a ≤ b)).map some }

/-- The projection `data[required]` that is saved to the cache and
returned. -/
def projRequired (f : StockFrame) : StockFrame :=
  { cols := requiredCols, dates := f.dates }

/-- Environment of one `fetch_stock_data` call: whether the cache file
exists, the frame parsed from it (`none` = `read_csv` raised), and the
download oracle. -/
structure FetchEnv where
  cacheExists : Bool
  cacheRead : Option StockFrame
  download : Nat → DlResult

/-- Observable trace of a `fetch_stock_data` call: the returned value
(`none` = Python `None`), whether an exception propagated, the frame
written to the cache file (if any), and the download calls/sleeps made. -/
structure FetchTrace where
  result : Option StockFrame
  raised : Bool
  saved : Option StockFrame
  calls : Nat
  waits : List Nat
deriving DecidableEq

/-- The cache-miss path: run the download loop, process dates, validate the
required columns, save `data[required]` to the cache and return it. -/
def downloadPath (download : Nat → DlResult) (maxRetries pauseSecs : Nat) :
    FetchTrace :=
  let lt := dlLoop download maxRetries pauseSecs 0
  if lt.raised then ⟨none, true, none, lt.calls, lt.waits⟩
  else
    match lt.data with
    | none => ⟨none, false, none, lt.calls, lt.waits⟩
    | some f =>
        let p := processDates f
        if requiredCols.all (fun c => p.cols.contains c) then
          ⟨some (projRequired p), false, some (projRequired p), lt.calls, lt.waits⟩
        else ⟨none, false, none, lt.calls, lt.waits⟩

/-- Embedding of `fetch_stock_data` (non-empty `app_root`, so the
`ValueError` guard at entry does not fire): check the cache first and fall
through to the download path when the file is absent, unreadable or
invalid. -/
def fetch_stock_data (env : FetchEnv) (maxRetries pauseSecs : Nat) : FetchTrace :=
  match env.cacheExists, env.cacheRead with
  | true, some f =>
      if cacheValidB f then ⟨some f, false, none, 0, []⟩
      else downloadPath env.download maxRetries pauseSecs
  | true, none => downloadPath env.download maxRetries pauseSecs
  | false, _ => downloadPath env.download maxRetries pauseSecs

theorem waits_shift (ps a m : Nat) :
    ps * (a + 1) :: (List.range m).map (fun k => ps * (a + 1 + k + 1)) =
      (List.range (m + 1)).map (fun k => ps * (a + k + 1)) := by
  rw [List.range_succ_eq_map, List.map_cons, List.map_map]
  simp only [List.cons.injEq]
  refine ⟨by ring_nf, List.map_congr_left fun i _ => ?_⟩
  simp only [Function.comp_apply, Nat.succ_eq_add_one]
  ring

theorem dlLoop_all_rateLimited (download : Nat → DlResult) (mr ps : Nat) :
    ∀ a, (∀ k, a ≤ k → k < mr → download k = .rateLimited) →
      dlLoop download mr ps a =
        ⟨none, false, mr - a, (List.range (mr - a)).map (fun k => ps * (a + k + 1))⟩ := by
  have main : ∀ n a, mr - a = n → (∀ k, a ≤ k → k < mr → download k = .rateLimited) →
      dlLoop download mr ps a =
        ⟨none, false, n, (List.range n).map (fun k => ps * (a + k + 1))⟩ := by
    intro n
    induction n with
    | zero =>
      intro a hn _
      rw [dlLoop]
      have : ¬ a < mr := by omega
      simp [this]
    | succ m ih =>
      intro a hn hrl
      rw [dlLoop]
      have ha : a < mr := by omega
      simp only [dif_pos ha]
      rw [hrl a (Nat.le_refl a) ha]
      have hrec := ih (a + 1) (by omega)
        (fun k hk1 hk2 => hrl k (by omega) hk2)
      rw [hrec]
      simp only [LoopTrace.mk.injEq, true_and]
      exact waits_shift ps a m
  intro a
  exact main (mr - a) a rfl

theorem dlLoop_raises_on_other (download : Nat → DlResult) (mr ps : Nat) :
    ∀ j a, a + j < mr → (∀ k, a ≤ k → k < a + j → download k = .rateLimited) →
      download (a + j) = .otherError →
      dlLoop download mr ps a =
        ⟨none, true, j + 1, (List.range j).map (fun k => ps * (a + k + 1))⟩ := by
  intro j
  induction j with
  | zero =>
    intro a hlt _ herr
    rw [dlLoop]
    have ha : a < mr := by omega
    simp only [dif_pos ha]
    rw [show a + 0 = a from rfl] at herr
    rw [herr]
    simp
  | succ m ih =>
    intro a hlt hrl herr
    rw [dlLoop]
    have ha : a < mr := by omega
    simp only [dif_pos ha]
    rw [hrl a (Nat.le_refl a) (by omega)]
    have hrec := ih (a + 1) (by omega)
      (fun k hk1 hk2 => hrl k (by omega) (by omega))
      (by rw [show a + 1 + m = a + (m + 1) by ring]; exact herr)
    rw [hrec]
    simp only [LoopTrace.mk.injEq, true_and]
    exact waits_shift ps a m

end DataCollection

namespace MacroData

open Common

/-! Embedding of `macro_data.py::fetch_macro_indicators`.  Numeric cells of
the synthetic fallback frame are represented symbolically, since numpy
`geomspace` values are irrational: `geomsp a b i n` is the i-th of n
geometrically spaced points from a to b, and `meanGeom` the mean of a
contiguous block of them (as produced by the rolling window). -/

/-- A numeric cell of a macro frame. -/
inductive MVal where
  | nanv
  | rat (q : ℚ)
  | geomsp (a b : ℚ) (i n : Nat)
  | meanGeom (a b : ℚ) (lo hi n : Nat)
deriving DecidableEq, Repr

/-- NaN test on a cell. -/
def MVal.isNanB : MVal → Bool
  | .nanv => true
  | _ => false

/-- Pandas `Series.fillna(method=bfill)` on a column of cells: a NaN cell
takes the next non-NaN value below it (staying NaN if there is none). -/
def bfillM : List MVal → List MVal
  | [] => []
  | v :: vs =>
      (if v.isNanB then ((vs.find? (fun w => !w.isNanB)).getD v) else v) :: bfillM vs

/-- A macro frame in column form: `Date`, `Interest_Rate`, `SP500`,
`Interest_Rate_MA30`, `SP500_MA30`. -/
@[ext]
structure MacroFrame where
  dates : List Int
  interest : List MVal
  sp500 : List MVal
  interestMA : List MVal
  sp500MA : List MVal
deriving DecidableEq, Repr

/-- Whether row `i` of the frame holds a NaN in any numeric column. -/
def rowHasNan (fr : MacroFrame) (i : Nat) : Bool :=
  (fr.interest.getD i (.rat 0)).isNanB || (fr.sp500.getD i (.rat 0)).isNanB
    || (fr.interestMA.getD i (.rat 0)).isNanB || (fr.sp500MA.getD i (.rat 0)).isNanB

/-- Pandas `DataFrame.dropna()`: keep only the rows with no NaN cell. -/
def dropnaF (fr : MacroFrame) : MacroFrame :=
  let keep := (List.range fr.dates.length).filter (fun i => !rowHasNan fr i)
  { dates := keep.map (fun i => fr.dates.getD i 0),
    interest := keep.map (fun i => fr.interest.getD i (.rat 0)),
    sp500 := keep.map (fun i => fr.sp500.getD i (.rat 0)),
    interestMA := keep.map (fun i => fr.interestMA.getD i (.rat 0)),
    sp500MA := keep.map (fun i => fr.sp500MA.getD i (.rat 0)) }

/-- The synthetic fallback frame built in the `except` branch: one row per
day of `date_range(start, end)`, `Interest_Rate = linspace(0.5, 5.5, n)`,
`SP500 = geomspace(50, 4500, n)`, plus 30-day `min_periods=1` rolling-mean
columns back-filled with `fillna(bfill)`. -/
def fallbackFrame (s e : Int) : MacroFrame :=
  let dates := dateRange s e
  let n := dates.length
  let ir : List ℚ := np_linspace (1/2) (11/2) n
  { dates := dates,
    interest := ir.map .rat,
    sp500 := (List.range n).map (fun i => .geomsp 50 4500 i n),
    interestMA := bfillM ((rollMeanMin1 30 ir).map .rat),
    sp500MA := bfillM ((List.range n).map (fun i => .meanGeom 50 4500 (i + 1 - 30) i n)) }

/-- Result of the single `pdr.get_data_fred` call. -/
inductive MacroDl where
  | ok (f : MacroFrame)
  | err
deriving DecidableEq

/-- Environment of one `fetch_macro_indicators` call.  `cacheUsable` bundles
the cache checks (file exists, `read_csv` succeeded, required columns
present, non-empty, no NaN dates); `cachedFrame` is the processed cached
frame (its ffill/interpolate/MA post-processing is not modelled: no claim
constrains it). -/
structure MacroEnv where
  cacheUsable : Bool
  cachedFrame : MacroFrame
  apiKeySet : Bool
  dl : MacroDl

/-- How the call returned. -/
inductive MacroOut where
  | fromCache (f : MacroFrame)
  | downloaded (f : MacroFrame)
  | fallback (f : MacroFrame)
deriving DecidableEq

/-- Observable trace: return value, FRED download calls made, sleeps made,
and whether an exception propagated to the caller. -/
structure MacroTrace where
  out : MacroOut
  calls : Nat
  waits : List Nat
  raised : Bool
deriving DecidableEq

/-- Embedding of `fetch_macro_indicators` with resolved start/end dates:
use the cache when usable, otherwise make a single FRED download attempt
inside one try/except whose handler returns `fallbackFrame.dropna()`.
A missing API key or an empty download raises into the same handler. -/
def fetch_macro_indicators (env : MacroEnv) (s e : Int) : MacroTrace :=
  if env.cacheUsable then ⟨.fromCache env.cachedFrame, 0, [], false⟩
  else if !env.apiKeySet then ⟨.fallback (dropnaF (fallbackFrame s e)), 0, [], false⟩
  else
    match env.dl with
    | .ok f =>
        if f.dates.isEmpty then ⟨.fallback (dropnaF (fallbackFrame s e)), 1, [], false⟩
        else ⟨.downloaded (dropnaF f), 1, [], false⟩
    | .err => ⟨.fallback (dropnaF (fallbackFrame s e)), 1, [], false⟩

theorem np_linspace_length (a b : ℚ) (n : Nat) : (np_linspace a b n).length = n := by
  unfold np_linspace
  by_cases h : n ≤ 1
  · rw [if_pos h, List.length_replicate]
  · rw [if_neg h, List.length_map, List.length_range]

theorem bfillM_length (l : List MVal) : (bfillM l).length = l.length := by
  induction l with
  | nil => rfl
  | cons v vs ih => simp [bfillM, ih]

theorem bfillM_no_nan (l : List MVal) (h : ∀ v ∈ l, v.isNanB = false) :
    bfillM l = l := by
  induction l with
  | nil => rfl
  | cons v vs ih =>
    have hv := h v (List.mem_cons_self v vs)
    simp only [bfillM, hv, Bool.false_eq_true, if_false, List.cons.injEq, true_and]
    exact ih (fun w hw => h w (List.mem_cons_of_mem v hw))

theorem bfillM_rat_map (l : List ℚ) : bfillM (l.map .rat) = l.map .rat := by
  apply bfillM_no_nan
  intro v hv
  obtain ⟨q, _, rfl⟩ := List.mem_map.mp hv
  rfl

theorem fallbackFrame_no_nan (s e : Int) (i : Nat) :
    rowHasNan (fallbackFrame s e) i = false := by
  unfold rowHasNan fallbackFrame
  simp only [Bool.or_eq_false_iff]
  rw [bfillM_rat_map]
  refine ⟨⟨⟨?_, ?_⟩, ?_⟩, ?_⟩
  · match h : (((np_linspace (1/2) (11/2) (dateRange s e).length).map MVal.rat).getD i (.rat 0)) with
    | .rat q => rfl
    | .nanv | .geomsp _ _ _ _ | .meanGeom _ _ _ _ _ =>
        exfalso
        rcases List.getD_eq_getElem?_getD _ _ _ ▸ h with h2
        rcases hx : ((np_linspace (1/2) (11/2) (dateRange s e).length).map MVal.rat)[i]? with _ | v
        · rw [hx] at h2; simp at h2
        · rw [hx] at h2
          simp only [Option.getD_some] at h2
          have := List.getElem?_mem hx
          rw [h2] at this
          obtain ⟨q, _, hq⟩ := List.mem_map.mp this
          simp at hq
  · match h : (((List.range (dateRange s e).length).map
        (fun i => MVal.geomsp 50 4500 i (dateRange s e).length)).getD i (.rat 0)) with
    | .rat q | .geomsp _ _ _ _ => rfl
    | .nanv | .meanGeom _ _ _ _ _ =>
        exfalso
        rcases List.getD_eq_getElem?_getD _ _ _ ▸ h with h2
        rcases hx : (((List.range (dateRange s e).length).map
            (fun i => MVal.geomsp 50 4500 i (dateRange s e).length)))[i]? with _ | v
        · rw [hx] at h2; simp at h2
        · rw [hx] at h2
          simp only [Option.getD_some] at h2
          have := List.getElem?_mem hx
          rw [h2] at this
          obtain ⟨q, _, hq⟩ := List.mem_map.mp this
          simp at hq
  · match h : (((rollMeanMin1 30 (np_linspace (1/2) (11/2) (dateRange s e).length)).map
        MVal.rat).getD i (.rat 0)) with
    | .rat q => rfl
    | .nanv | .geomsp _ _ _ _ | .meanGeom _ _ _ _ _ =>
        exfalso
        rcases List.getD_eq_getElem?_getD _ _ _ ▸ h with h2
        rcases hx : ((rollMeanMin1 30 (np_linspace (1/2) (11/2)
            (dateRange s e).length)).map MVal.rat)[i]? with _ | v
        · rw [hx] at h2; simp at h2
        · rw [hx] at h2
          simp only [Option.getD_some] at h2
          have := List.getElem?_mem hx
          rw [h2] at this
          obtain ⟨q, _, hq⟩ := List.mem_map.mp this
          simp at hq
  · rw [bfillM_no_nan]
    · match h : (((List.range (dateRange s e).length).map
          (fun i => MVal.meanGeom 50 4500 (i + 1 - 30) i (dateRange s e).length)).getD
            i (.rat 0)) with
      | .rat q | .meanGeom _ _ _ _ _ => rfl
      | .nanv | .geomsp _ _ _ _ =>
          exfalso
          rcases List.getD_eq_getElem?_getD _ _ _ ▸ h with h2
          rcases hx : (((List.range (dateRange s e).length).map
              (fun i => MVal.meanGeom 50 4500 (i + 1 - 30) i (dateRange s e).length)))[i]?
              with _ | v
          · rw [hx] at h2; simp at h2
          · rw [hx] at h2
            simp only [Option.getD_some] at h2
            have := List.getElem?_mem hx
            rw [h2] at this
            obtain ⟨q, _, hq⟩ := List.mem_map.mp this
            simp at hq
    · intro v hv
      obtain ⟨j, _, rfl⟩ := List.mem_map.mp hv
      rfl

theorem dropnaF_fallback (s e : Int) :
    dropnaF (fallbackFrame s e) = fallbackFrame s e := by
  have hkeep : (List.range (fallbackFrame s e).dates.length).filter
      (fun i => !rowHasNan (fallbackFrame s e) i) =
      List.range (fallbackFrame s e).dates.length := by
    apply List.filter_eq_self.mpr
    intro i _
    simp [fallbackFrame_no_nan]
  have hmap : ∀ (l : List MVal), l.length = (fallbackFrame s e).dates.length →
      (List.range (fallbackFrame s e).dates.length).map (fun i => l.getD i (.rat 0)) = l := by
    intro l hl
    rw [← hl]
    apply List.ext_getElem
    · simp
    · intro i h1 h2
      simp [List.getD_eq_getElem?_getD, List.getElem?_eq_getElem h2]
  have hdates : (List.range (fallbackFrame s e).dates.length).map
      (fun i => (fallbackFrame s e).dates.getD i 0) = (fallbackFrame s e).dates := by
    apply List.ext_getElem
    · simp
    · intro i h1 h2
      simp [List.getD_eq_getElem?_getD, List.getElem?_eq_getElem h2]
  unfold dropnaF
  simp only [hkeep]
  have hlen2 : ((fallbackFrame s e).interest).length = (fallbackFrame s e).dates.length := by
    simp [fallbackFrame, np_linspace_length]
  have hlen3 : ((fallbackFrame s e).sp500).length = (fallbackFrame s e).dates.length := by
    simp [fallbackFrame]
  have hlen4 : ((fallbackFrame s e).interestMA).length = (fallbackFrame s e).dates.length := by
    simp [fallbackFrame, bfillM_length, rollMeanMin1, np_linspace_length]
  have hlen5 : ((fallbackFrame s e).sp500MA).length = (fallbackFrame s e).dates.length := by
    simp [fallbackFrame, bfillM_length]
  exact MacroFrame.ext hdates (hmap _ hlen2) (hmap _ hlen3) (hmap _ hlen4) (hmap _ hlen5)

end MacroData

namespace Preprocessing

open Common

/-! Embedding of `data_preprocessing.py::preprocess_data` (date alignment
part).  A raw frame is a list of rows `(Option Int) × α`: the parsed date
(`none` = NaT after `to_datetime(errors=coerce)`) and the row payload. -/

/-- Embedding of `enforce_date_column`: drop rows with invalid dates and
sort by date (stable, like `sort_values`). -/
def enforceDateColumn {α : Type} (rows : List (Option Int × α)) : List (Int × α) :=
  (rows.filterMap (fun r => r.1.map (fun d => (d, r.2)))).insertionSort
    (fun x y => x.1 ≤ y.1)

/-- Pandas `Series.min()` over the date column (callers guarantee the frame
is non-empty; 0 is a junk value for the empty frame, where pandas would
yield NaT and `date_range` would fail). -/
def minDate {α : Type} (rows : List (Int × α)) : Int :=
  match rows.map Prod.fst with
  | [] => 0
  | d :: ds => ds.foldl min d

/-- Pandas `Series.max()` over the date column. -/
def maxDate {α : Type} (rows : List (Int × α)) : Int :=
  match rows.map Prod.fst with
  | [] => 0
  | d :: ds => ds.foldl max d

/-- Value at day `d` of `set_index(Date).reindex(date_range).ffill().bfill()`
for a date-sorted frame: `reindex` keeps only rows whose date lies in the
range, `ffill` then propagates the value of the latest in-range row at or
before `d`, and `bfill` fills what is left from the earliest in-range row
after `d`.  `none` means the cell is still NaN (no row in range). -/
def reindexFfillBfill {α : Type} (rows : List (Int × α)) (s e d : Int) : Option α :=
  match (rows.filter (fun r => s ≤ r.1 && r.1 ≤ d)).getLast? with
  | some r => some r.2
  | none => ((rows.filter (fun r => d < r.1 && r.1 ≤ e)).head?).map Prod.snd

/-- The merged frame handed to `add_technical_indicators`: both frames are
standardized, reindexed onto the daily calendar from the later of the two
minimum dates to the earlier of the two maximum dates, ffilled/bfilled, and
joined one row per day (`merge_asof` on identical daily keys is an exact
join). -/
def preprocessMerged {α β : Type} (stockRaw : List (Option Int × α))
    (macroRaw : List (Option Int × β)) : List (Int × Option α × Option β) :=
  let stock := enforceDateColumn stockRaw
  let mac := enforceDateColumn macroRaw
  let s := max (minDate stock) (minDate mac)
  let e := min (maxDate stock) (maxDate mac)
  (dateRange s e).map
    (fun d => (d, reindexFfillBfill stock s e d, reindexFfillBfill mac s e d))

theorem dateRange_length (s e : Int) (h : s ≤ e) :
    (dateRange s e).length = (e - s + 1).toNat := by
  unfold dateRange
  rw [if_pos h, List.length_map, List.length_range]

theorem mem_dateRange (s e d : Int) : d ∈ dateRange s e ↔ s ≤ d ∧ d ≤ e := by
  unfold dateRange
  by_cases h : s ≤ e
  · rw [if_pos h]
    simp only [List.mem_map, List.mem_range]
    constructor
    · rintro ⟨i, hi, rfl⟩
      omega
    · rintro ⟨h1, h2⟩
      exact ⟨(d - s).toNat, by omega, by omega⟩
  · rw [if_neg h]
    simp only [List.not_mem_nil, false_iff]
    omega

theorem dateRange_nodup (s e : Int) : (dateRange s e).Nodup := by
  unfold dateRange
  by_cases h : s ≤ e
  · rw [if_pos h]
    refine List.Nodup.map ?_ (List.nodup_range _)
    intro a b hab
    simp only [add_right_inj, Nat.cast_inj] at hab
    exact hab
  · rw [if_neg h]
    exact List.nodup_nil

end Preprocessing

namespace ProphetModel

/-! Embedding of `prophet_model.py::train_prophet_model`: the model
configuration computed before `model.fit`, and the post-prediction
aggregation/smoothing.  The Prophet fit/predict itself is an oracle: the
claims only constrain what is done to its output. -/

/-- Ticker-specific hyperparameters. -/
structure TickerParams where
  capMultiplier : ℚ
  changepointPriorScale : ℚ
  seasonalityMode : String
deriving DecidableEq, Repr

/-- The `ticker_params` table with its default entry. -/
def tickerParams (ticker : String) : TickerParams :=
  if ticker = "TSLA" then ⟨5/2, 1/20, "multiplicative"⟩
  else if ticker = "AAPL" then ⟨2, 1/10, "multiplicative"⟩
  else ⟨2, 2/25, "multiplicative"⟩

/-- Day number of `2020-08-31` (days since 1970-01-01), the TSLA split
adjustment date. -/
def splitDate : Int := 18505

/-- The split adjustment: TSLA closes strictly before `splitDate` are
multiplied by 5. -/
def adjustClose (ticker : String) (rows : List (Int × ℚ)) : List (Int × ℚ) :=
  rows.map (fun r =>
    (r.1, if ticker = "TSLA" && decide (r.1 < splitDate) then r.2 * 5 else r.2))

/-- Pandas `Series.max()` over the close column (0 stands in for the NaN a
caller would get on an empty frame). -/
def maxClose (rows : List (Int × ℚ)) : ℚ :=
  match rows.map Prod.snd with
  | [] => 0
  | c :: cs => cs.foldl max c

/-- Column renaming `Date → ds`, `Close → y`. -/
def renameCols (cols : List String) : List String :=
  cols.map (fun c => if c = "Date" then "ds" else if c = "Close" then "y" else c)

/-- The candidate regressor columns. -/
def regressorFeatures : List String := ["RSI", "MACD", "Interest_Rate"]

/-- Configuration of the Prophet model built by `train_prophet_model`. -/
structure ModelConfig where
  growth : String
  cap : ℚ
  floorVal : ℚ
  changepointPriorScale : ℚ
  seasonalityMode : String
  regressors : List String
deriving DecidableEq, Repr

/-- Embedding of the configuration phase of `train_prophet_model`: check the
required columns (raising `ValueError`, i.e. `none`, if missing), drop NaT
dates, apply the TSLA split adjustment, compute the dynamic cap
`Close.max() * cap_multiplier` with floor 0, and register each candidate
regressor present among the (renamed) columns. -/
def train_prophet_config (ticker : String) (cols : List String)
    (rows : List (Option Int × ℚ)) : Option ModelConfig :=
  if "Date" ∈ cols ∧ "Close" ∈ cols then
    let parsed := rows.filterMap (fun r => r.1.map (fun d => (d, r.2)))
    let adjusted := adjustClose ticker parsed
    let p := tickerParams ticker
    some { growth := "logistic",
           cap := maxClose adjusted * p.capMultiplier,
           floorVal := 0,
           changepointPriorScale := p.changepointPriorScale,
           seasonalityMode := p.seasonalityMode,
           regressors := regressorFeatures.filter (fun f => (renameCols cols).contains f) }
  else none

/-- One row of the Prophet prediction frame. -/
structure FRow where
  ds : Int
  yhat : ℚ
  ylo : ℚ
  yhi : ℚ
deriving DecidableEq, Repr

/-- The `clip(lower=0)` applied to `yhat`, `yhat_lower`, `yhat_upper`. -/
def clipRow (r : FRow) : FRow :=
  { r with yhat := max r.yhat 0, ylo := max r.ylo 0, yhi := max r.yhi 0 }

/-- One row of the aggregated forecast table. -/
structure AggRow where
  period : Int
  low : ℚ
  avg : ℚ
  high : ℚ
deriving DecidableEq, Repr

/-- One row of the aggregated actual table. -/
structure ActRow where
  period : Int
  avg : ℚ
deriving DecidableEq, Repr

/-- Splits off the maximal prefix of rows in period `p`. -/
def spanPeriod (periodOf : Int → Int) (p : Int) :
    List FRow → List FRow × List FRow
  | [] => ([], [])
  | r :: rs =>
      if periodOf r.ds = p then
        let q := spanPeriod periodOf p rs
        (r :: q.1, q.2)
      else ([], r :: rs)

theorem spanPeriod_snd_length (periodOf : Int → Int) (p : Int) (l : List FRow) :
    (spanPeriod periodOf p l).2.length ≤ l.length := by
  induction l with
  | nil => simp [spanPeriod]
  | cons r rs ih =>
    unfold spanPeriod
    by_cases h : periodOf r.ds = p
    · simp only [h, if_true]
      exact Nat.le_succ_of_le ih
    · simp [h]

/-- Groups date-sorted rows into runs of equal period key (for a monotone
period assignment, pandas sorted `groupby(Period)` yields these runs). -/
def chunkByPeriod (periodOf : Int → Int) : List FRow → List (List FRow)
  | [] => []
  | r :: rs =>
      let q := spanPeriod periodOf (periodOf r.ds) rs
      (r :: q.1) :: chunkByPeriod periodOf q.2
termination_by l => l.length
decreasing_by
  exact Nat.lt_succ_of_le (spanPeriod_snd_length _ _ _)

/-- The `agg(yhat_lower min, yhat mean, yhat_upper max)` over one group. -/
def aggOfChunk (periodOf : Int → Int) : List FRow → Option AggRow
  | [] => none
  | r :: rs =>
      some { period := periodOf r.ds,
             low := (rs.map FRow.ylo).foldl min r.ylo,
             avg := ((r :: rs).map FRow.yhat).sum / ((rs.length : ℚ) + 1),
             high := (rs.map FRow.yhi).foldl max r.yhi }

/-- The aggregated forecast table `agg_forecast`. -/
def aggForecastTbl (periodOf : Int → Int) (rows : List FRow) : List AggRow :=
  (chunkByPeriod periodOf rows).filterMap (aggOfChunk periodOf)

/-- The `groupby(Period).agg(y mean)` actual table `agg_actual` over
`(ds, y)` rows. -/
def aggActualTbl (periodOf : Int → Int) (rows : List (Int × ℚ)) : List ActRow :=
  match rows with
  | [] => []
  | r :: rs =>
      let q := ((r :: rs).filter (fun x => periodOf x.1 = periodOf r.1),
                rs.filter (fun x => ¬ periodOf x.1 = periodOf r.1))
      { period := periodOf r.1,
        avg := (q.1.map Prod.snd).sum / (q.1.length : ℚ) } :: aggActualTbl periodOf q.2
termination_by rows.length
decreasing_by
  exact Nat.lt_succ_of_le (List.length_filter_le _ _)

/-- The transition smoothing: when both tables are non-empty, the first
forecast row's Low/Average/High are all overwritten with the Average of the
last actual row. -/
def smoothJoin (actual : List ActRow) (fc : List AggRow) : List AggRow :=
  match actual.getLast?, fc with
  | some la, f0 :: fs => { f0 with low := la.avg, avg := la.avg, high := la.avg } :: fs
  | _, _ => fc

/-- The full post-prediction path of `train_prophet_model`: clip all
predictions at 0, keep the rows from the last historical date on, aggregate
by period, and smooth the join to the aggregated actuals. -/
def prophetTables (periodOf : Int → Int) (actualRows : List (Int × ℚ))
    (fcRows : List FRow) (lastDate : Int) : List ActRow × List AggRow :=
  let clipped := fcRows.map clipRow
  let future := clipped.filter (fun r => lastDate ≤ r.ds)
  let actTbl := aggActualTbl periodOf actualRows
  (actTbl, smoothJoin actTbl (aggForecastTbl periodOf future))

end ProphetModel

namespace AppRoutes

/-! Embedding of `app.py::generate_report` (the `/generate` POST route).
The two pipelines are oracles in the environment; the response captures the
HTTP code, the JSON `status` field, the `viewer_url` and whether any
pipeline was invoked. -/

/-- Python `str.strip()` (whitespace at both ends). -/
def pyStrip (s : String) : String :=
  ⟨((s.toList.dropWhile Char.isWhitespace).reverse.dropWhile
      Char.isWhitespace).reverse⟩

/-- Python `str.upper()` restricted to ASCII (ticker symbols). -/
def pyUpper (s : String) : String := ⟨s.toList.map Char.toUpper⟩

/-- One character of the class `[A-Z0-9\^.-]`. -/
def tickerCharOk (c : Char) : Bool :=
  (65 ≤ c.toNat && c.toNat ≤ 90) || (48 ≤ c.toNat && c.toNat ≤ 57)
    || c = '^' || c = '.' || c = '-'

/-- Full match of `re.match(r'^[A-Z0-9\^.-]+$', s)` on an already stripped
string: non-empty and every character in the class. -/
def validTicker (s : String) : Bool :=
  !s.isEmpty && s.toList.all tickerCharOk

/-- The ticker as the route normalizes it: `data.get('ticker','')` stripped
and upper-cased. -/
def cleanTicker (raw : String) : String := pyUpper (pyStrip raw)

/-- An incoming request. -/
structure GenRequest where
  isJson : Bool
  ticker : String
  siteName : String

/-- Outcome of `run_pipeline` (original pipeline): the saved report file
base name (if the file exists), whether usable report HTML came back, and
whether the call raised. -/
structure OrigResult where
  savedFile : Option String
  htmlOk : Bool
  raisedE : Bool

/-- Outcome of `run_wp_pipeline`: whether usable HTML came back, whether
the asset file save succeeded, and whether the call raised. -/
structure WpResult where
  htmlOk : Bool
  saveOk : Bool
  raisedE : Bool

/-- Environment of one `/generate` request. -/
structure GenEnv where
  orig : OrigResult
  wp : WpResult
  timestamp : String

/-- The response as the claims observe it. -/
structure GenResponse where
  code : Nat
  status : String
  viewerUrl : Option String
  pipelineInvoked : Bool
deriving DecidableEq, Repr

/-- The `/report/view` viewer URL produced by
`url_for(show_report_page, ticker=.., url=..)` (query-string encoding
abstracted). -/
def viewerUrlFor (ticker fileUrl : String) : String :=
  "/report/view?ticker=" ++ ticker ++ "&url=" ++ fileUrl

/-- The `/static/<file>` URL of a saved report file. -/
def staticUrlFor (fileName : String) : String := "/static/" ++ fileName

/-- Embedding of the `/generate` route: reject non-JSON requests and
invalid tickers with HTTP 400 before any pipeline runs; route
`site_name == moneystockers` to the WordPress pipeline and everything else
to the original pipeline; a saved report yields status `success` with the
viewer URL, generated-but-unsaved HTML yields `success_html_only`, and
pipeline failure or an exception yields HTTP 500 with status `error`. -/
def generate_report (env : GenEnv) (req : GenRequest) : GenResponse :=
  if !req.isJson then ⟨400, "error", none, false⟩
  else
    let ticker := cleanTicker req.ticker
    if !validTicker ticker then ⟨400, "error", none, false⟩
    else
      let site := pyStrip req.siteName
      if site = "moneystockers" then
        if env.wp.raisedE then ⟨500, "error", none, true⟩
        else if env.wp.htmlOk then
          if env.wp.saveOk then
            let fileName := ticker ++ "_wp_asset_" ++ env.timestamp ++ ".html"
            ⟨200, "success", some (viewerUrlFor ticker (staticUrlFor fileName)), true⟩
          else ⟨200, "success_html_only", some "#", true⟩
        else ⟨500, "error", none, true⟩
      else
        if env.orig.raisedE then ⟨500, "error", none, true⟩
        else
          match env.orig.savedFile with
          | some f =>
              ⟨200, "success", some (viewerUrlFor ticker (staticUrlFor f)), true⟩
          | none =>
              if env.orig.htmlOk then ⟨200, "success_html_only", some "#", true⟩
              else ⟨500, "error", none, true⟩

end AppRoutes

namespace AutoPublisher

/-! Embedding of `auto_publisher.py`: the per-run `job()` body, the
`schedule_next_job` delay, and the startup `load_state` restoration. -/

/-- The three components pickled by `save_state`. -/
structure SavedState where
  pending : List String
  lastWriterIdx : Int
  failed : List String
deriving DecidableEq, Repr

/-- In-memory scheduler state touched by `job()`. -/
structure PubState where
  pending : List String
  failed : List String
  lastWriterIdx : Int
  postsToday : Nat
  lastPublishDate : Option Int
  writerPos : Nat
deriving DecidableEq, Repr

/-- Environment of one `job()` run: the master ticker list, the writer
count, today's date and the two success oracles (report generation and
WordPress publication). -/
structure PubEnv where
  master : List String
  nWriters : Nat
  today : Int
  reportOk : Bool
  publishOk : Bool

/-- Daily counter reset done at the top of `job()`: a publish on an earlier
date zeroes `posts_published_today`. -/
def resetPosts (env : PubEnv) (s : PubState) : Nat :=
  match s.lastPublishDate with
  | some d => if d ≠ env.today then 0 else s.postsToday
  | none => s.postsToday

/-- Embedding of `job()`.  Returns the new in-memory state together with
the `save_state` payload, or `none` when the run ends without touching the
state file (the daily 15-post limit skip).  The writer iterator is tracked
by the original index `writerPos` of the next writer in `WRITERS_CONFIG`. -/
def jobStep (env : PubEnv) (s : PubState) : PubState × Option SavedState :=
  let postsToday := resetPosts env s
  if 15 ≤ postsToday then ({ s with postsToday := postsToday }, none)
  else
    let pf : List String × List String :=
      if s.pending.isEmpty then
        if !s.failed.isEmpty then (s.failed, []) else (env.master, s.failed)
      else (s.pending, s.failed)
    match pf.1 with
    | [] =>
        let s2 := { s with pending := pf.1, failed := pf.2, postsToday := postsToday }
        (s2, some ⟨pf.1, s.lastWriterIdx, pf.2⟩)
    | t :: rest =>
        let widx : Int := (s.writerPos : Int)
        let success := env.reportOk && env.publishOk
        let failed2 :=
          if success then pf.2
          else if t ∈ pf.2 then pf.2 else pf.2 ++ [t]
        let posts2 := if success then postsToday + 1 else postsToday
        let lastPub2 := if success then some env.today else s.lastPublishDate
        let s2 : PubState :=
          { pending := rest, failed := failed2, lastWriterIdx := widx,
            postsToday := posts2, lastPublishDate := lastPub2,
            writerPos := (s.writerPos + 1) % env.nWriters }
        (s2, some ⟨rest, widx, failed2⟩)

/-- Embedding of `run_job_and_reschedule`: run the job, then schedule the
next one `delay` minutes later where `delay` is the fresh
`random.randint(MIN_INTERVAL_MINUTES, MAX_INTERVAL_MINUTES)` draw passed in
by the RNG. -/
def runJobAndReschedule (env : PubEnv) (s : PubState) (randDraw : Nat) :
    (PubState × Option SavedState) × Nat :=
  (jobStep env s, randDraw)

/-- Embedding of `load_state` when the pickle file is readable (`none`
means no file or an unpickling error, yielding the default state): pending
and failed tickers are filtered against the master list, an emptied pending
list is re-seeded from the master list, and an out-of-range writer index is
reset to -1. -/
def loadState (master : List String) (nWriters : Nat)
    (file : Option SavedState) : SavedState :=
  match file with
  | none => ⟨master, -1, []⟩
  | some r =>
      let p := r.pending.filter (fun t => master.contains t)
      let p2 := if p.isEmpty && !master.isEmpty then master else p
      let f := r.failed.filter (fun t => master.contains t)
      let idx := if r.lastWriterIdx < -1 ∨ (nWriters : Int) ≤ r.lastWriterIdx
        then -1 else r.lastWriterIdx
      ⟨p2, idx, f⟩

end AutoPublisher

/-! Claim theorems. -/

/-- C1: `fetch_stock_data` follows the cache protocol: a cached frame that
exists and passes validation (required columns, non-empty, no NaN dates) is
returned with no download attempted; otherwise the download path runs and,
when the downloaded data validates, the required-column projection is both
saved to the cache and returned. -/
theorem claim_C1_fetch_stock_data_cache_protocol
    (env : DataCollection.FetchEnv) (mr ps : Nat)
    (f g : DataCollection.StockFrame) :
    (env.cacheExists = true → env.cacheRead = some f →
      DataCollection.cacheValidB f = true →
      DataCollection.fetch_stock_data env mr ps = ⟨some f, false, none, 0, []⟩) ∧
    ((env.cacheExists = false ∨ env.cacheRead = none ∨
        (env.cacheRead = some f ∧ DataCollection.cacheValidB f = false)) →
      DataCollection.fetch_stock_data env mr ps =
        DataCollection.downloadPath env.download mr ps) ∧
    ((DataCollection.dlLoop env.download mr ps 0).raised = false →
      (DataCollection.dlLoop env.download mr ps 0).data = some g →
      DataCollection.requiredCols.all
          (fun c => (DataCollection.processDates g).cols.contains c) = true →
      DataCollection.downloadPath env.download mr ps =
        ⟨some (DataCollection.projRequired (DataCollection.processDates g)), false,
         some (DataCollection.projRequired (DataCollection.processDates g)),
         (DataCollection.dlLoop env.download mr ps 0).calls,
         (DataCollection.dlLoop env.download mr ps 0).waits⟩) := by
  obtain ⟨ce, cr, dl⟩ := env
  refine ⟨?_, ?_, ?_⟩
  · intro h1 h2 h3
    simp only at h1 h2
    subst h1; subst h2
    simp [DataCollection.fetch_stock_data, h3]
  · intro h
    rcases h with h1 | h1 | ⟨h1, h2⟩ <;> simp only at h1
    · subst h1
      simp [DataCollection.fetch_stock_data]
    · subst h1
      cases ce <;> simp [DataCollection.fetch_stock_data]
    · subst h1
      cases ce <;> simp [DataCollection.fetch_stock_data, h2]
  · intro h1 h2 h3
    simp only at h1 h2 h3
    simp [DataCollection.downloadPath, h1, h2, h3]
    intro x hx
    have := List.all_eq_true.mp h3 x hx
    simpa using this

/-- C1 witness: a concrete valid cached frame is returned untouched with
zero downloads. -/
theorem claim_C1_fetch_stock_data_cache_protocol_witness :
    DataCollection.fetch_stock_data
      ⟨true, some ⟨DataCollection.requiredCols, [some 0]⟩,
       fun _ => DataCollection.DlResult.rateLimited⟩ 3 2 =
      ⟨some ⟨DataCollection.requiredCols, [some 0]⟩, false, none, 0, []⟩ :=
  (claim_C1_fetch_stock_data_cache_protocol
      ⟨true, some ⟨DataCollection.requiredCols, [some 0]⟩,
       fun _ => DataCollection.DlResult.rateLimited⟩ 3 2
      ⟨DataCollection.requiredCols, [some 0]⟩
      ⟨DataCollection.requiredCols, [some 0]⟩).1 rfl rfl (by decide)

/-- C2 counterexample: `fetch_macro_indicators` does not retry.  With the
cache unusable, the API key set and the single FRED call failing (e.g. a
rate limit), it makes exactly one download call, sleeps never, and falls
back — whereas the claimed stock-fetch behaviour (max_retries = 3,
pause_secs = 2) would make further calls with backoff sleeps. -/
theorem claim_C2_macro_no_retry_counterexample :
    (MacroData.fetch_macro_indicators
        ⟨false, ⟨[], [], [], [], []⟩, true, .err⟩ 0 9).calls = 1 ∧
    (MacroData.fetch_macro_indicators
        ⟨false, ⟨[], [], [], [], []⟩, true, .err⟩ 0 9).waits = [] ∧
    ¬ 2 ≤ (MacroData.fetch_macro_indicators
        ⟨false, ⟨[], [], [], [], []⟩, true, .err⟩ 0 9).calls := by
  refine ⟨rfl, rfl, ?_⟩
  intro h
  simp [MacroData.fetch_macro_indicators] at h

/-- C2 (amended): `fetch_stock_data` retries with backoff exactly as
claimed — only rate-limit errors are retried, each retry `k` is preceded by
a `pause_secs * k` sleep, at most `max_retries` downloads are attempted and
`None` is returned after exhausting them, while a non-rate-limit error
re-raises immediately; `fetch_macro_indicators`, however, performs no
retry: a single FRED attempt whose failure immediately yields the fallback
frame with no sleeps. -/
theorem claim_C2_retry_backoff_amended
    (env : DataCollection.FetchEnv) (mr ps : Nat) (j : Nat)
    (menv : MacroData.MacroEnv) (s e : Int) :
    ((∀ k, k < mr → env.download k = .rateLimited) →
      DataCollection.dlLoop env.download mr ps 0 =
        ⟨none, false, mr, (List.range mr).map (fun k => ps * (k + 1))⟩) ∧
    (env.cacheExists = false → (∀ k, k < mr → env.download k = .rateLimited) →
      DataCollection.fetch_stock_data env mr ps =
        ⟨none, false, none, mr, (List.range mr).map (fun k => ps * (k + 1))⟩) ∧
    (j < mr → (∀ k, k < j → env.download k = .rateLimited) →
      env.download j = .otherError →
      DataCollection.dlLoop env.download mr ps 0 =
        ⟨none, true, j + 1, (List.range j).map (fun k => ps * (k + 1))⟩) ∧
    (menv.cacheUsable = false → menv.apiKeySet = true → menv.dl = .err →
      MacroData.fetch_macro_indicators menv s e =
        ⟨.fallback (MacroData.dropnaF (MacroData.fallbackFrame s e)), 1, [], false⟩) := by
  have hall : (∀ k, k < mr → env.download k = .rateLimited) →
      DataCollection.dlLoop env.download mr ps 0 =
        ⟨none, false, mr, (List.range mr).map (fun k => ps * (k + 1))⟩ := by
    intro h
    have := DataCollection.dlLoop_all_rateLimited env.download mr ps 0
      (fun k _ hk => h k hk)
    simpa using this
  refine ⟨hall, ?_, ?_, ?_⟩
  · intro hce h
    obtain ⟨ce, cr, dl⟩ := env
    simp only at hce
    subst hce
    have hl := hall h
    simp [DataCollection.fetch_stock_data, DataCollection.downloadPath, hl]
  · intro hj hrl herr
    have := DataCollection.dlLoop_raises_on_other env.download mr ps j 0
      (by omega) (fun k _ hk => hrl k (by omega)) (by simpa using herr)
    simpa using this
  · intro h1 h2 h3
    obtain ⟨cu, cf, ak, d⟩ := menv
    simp only at h1 h2 h3
    subst h1; subst h2; subst h3
    simp [MacroData.fetch_macro_indicators]

/-- C2 witness: with three straight rate limits (max_retries = 3,
pause_secs = 2) the stock fetch downloads exactly three times, sleeping
2, 4 and 6 seconds, and returns None; the macro fetch falls back after one
call. -/
theorem claim_C2_retry_backoff_amended_witness :
    DataCollection.fetch_stock_data
      ⟨false, none, fun _ => DataCollection.DlResult.rateLimited⟩ 3 2 =
      ⟨none, false, none, 3, [2, 4, 6]⟩ ∧
    MacroData.fetch_macro_indicators
      ⟨false, ⟨[], [], [], [], []⟩, true, .err⟩ 0 9 =
      ⟨.fallback (MacroData.dropnaF (MacroData.fallbackFrame 0 9)), 1, [], false⟩ := by
  constructor
  · have := (claim_C2_retry_backoff_amended
      ⟨false, none, fun _ => DataCollection.DlResult.rateLimited⟩ 3 2 0
      ⟨false, ⟨[], [], [], [], []⟩, true, .err⟩ 0 9).2.1 rfl (fun k _ => rfl)
    simpa [List.range_succ] using this
  · exact (claim_C2_retry_backoff_amended
      ⟨false, none, fun _ => DataCollection.DlResult.rateLimited⟩ 3 2 0
      ⟨false, ⟨[], [], [], [], []⟩, true, .err⟩ 0 9).2.2.2 rfl rfl rfl

/-- Helper: the pandas `adjust=False` EWM recurrence, read off the
accumulator list. -/
theorem ewmAux_getD (alpha : ℚ) :
    ∀ (xs : List ℚ) (prev : ℚ) (i : Nat), i < xs.length →
      (Common.ewmAux alpha prev xs).getD i 0 =
        alpha * xs.getD i 0 +
          (1 - alpha) * ((prev :: Common.ewmAux alpha prev xs).getD i 0) := by
  intro xs
  induction xs with
  | nil => intro prev i h; simp at h
  | cons x t ih =>
    intro prev i h
    cases i with
    | zero => simp [Common.ewmAux]
    | succ n =>
      simp only [Common.ewmAux, List.getD_cons_succ, List.getD_cons_zero]
      exact ih (alpha * x + (1 - alpha) * prev) n (by simpa using h)

/-- Helper: `ewm(span, adjust=False).mean()[i+1]` follows the recurrence
with `α = 2 / (span + 1)`. -/
theorem ewmMean_recurrence (span : Nat) (xs : List ℚ) (i : Nat)
    (h : i + 1 < xs.length) :
    (Common.ewmMean span xs).getD (i + 1) 0 =
      2 / ((span : ℚ) + 1) * xs.getD (i + 1) 0 +
        (1 - 2 / ((span : ℚ) + 1)) * (Common.ewmMean span xs).getD i 0 := by
  cases xs with
  | nil => simp at h
  | cons x t =>
    simp only [Common.ewmMean, List.getD_cons_succ]
    exact ewmAux_getD _ t x i (by simpa using h)

/-- C3: `preprocess_data` aligns the two frames on the daily calendar from
the later of the two minimum dates to the earlier of the two maximum dates
(gaps ffilled then bfilled inside `reindexFfillBfill`), and the merged
frame passed on to indicator computation has exactly one row for each day
of that overlapping range. -/
theorem claim_C3_daily_alignment {α β : Type}
    (stockRaw : List (Option Int × α)) (macroRaw : List (Option Int × β))
    (s e : Int)
    (_hstock : Preprocessing.enforceDateColumn stockRaw ≠ [])
    (_hmac : Preprocessing.enforceDateColumn macroRaw ≠ [])
    (hs : s = max (Preprocessing.minDate (Preprocessing.enforceDateColumn stockRaw))
        (Preprocessing.minDate (Preprocessing.enforceDateColumn macroRaw)))
    (he : e = min (Preprocessing.maxDate (Preprocessing.enforceDateColumn stockRaw))
        (Preprocessing.maxDate (Preprocessing.enforceDateColumn macroRaw)))
    (hse : s ≤ e) :
    (Preprocessing.preprocessMerged stockRaw macroRaw).map Prod.fst =
        Common.dateRange s e ∧
    (Preprocessing.preprocessMerged stockRaw macroRaw).length = (e - s + 1).toNat ∧
    ((Preprocessing.preprocessMerged stockRaw macroRaw).map Prod.fst).Nodup ∧
    (∀ d : Int,
      d ∈ (Preprocessing.preprocessMerged stockRaw macroRaw).map Prod.fst ↔
        s ≤ d ∧ d ≤ e) := by
  subst hs
  subst he
  have hmap : (Preprocessing.preprocessMerged stockRaw macroRaw).map Prod.fst =
      Common.dateRange
        (max (Preprocessing.minDate (Preprocessing.enforceDateColumn stockRaw))
          (Preprocessing.minDate (Preprocessing.enforceDateColumn macroRaw)))
        (min (Preprocessing.maxDate (Preprocessing.enforceDateColumn stockRaw))
          (Preprocessing.maxDate (Preprocessing.enforceDateColumn macroRaw))) := by
    simp only [Preprocessing.preprocessMerged, List.map_map]
    exact List.map_id _
  refine ⟨hmap, ?_, ?_, ?_⟩
  · have h1 : (Preprocessing.preprocessMerged stockRaw macroRaw).length =
        ((Preprocessing.preprocessMerged stockRaw macroRaw).map Prod.fst).length :=
      (List.length_map _ _).symm
    rw [h1, hmap, Preprocessing.dateRange_length _ _ hse]
  · rw [hmap]
    exact Preprocessing.dateRange_nodup _ _
  · intro d
    rw [hmap, Preprocessing.mem_dateRange]

/-- C3 witness: two one-row frames sharing day 0 merge into the single-day
calendar. -/
theorem claim_C3_daily_alignment_witness :
    (Preprocessing.preprocessMerged [((some 0 : Option Int), ())]
        [((some 0 : Option Int), ())]).map Prod.fst = Common.dateRange 0 0 ∧
    (Preprocessing.preprocessMerged [((some 0 : Option Int), ())]
        [((some 0 : Option Int), ())]).length = ((0 : Int) - 0 + 1).toNat ∧
    ((Preprocessing.preprocessMerged [((some 0 : Option Int), ())]
        [((some 0 : Option Int), ())]).map Prod.fst).Nodup ∧
    (∀ d : Int,
      d ∈ (Preprocessing.preprocessMerged [((some 0 : Option Int), ())]
          [((some 0 : Option Int), ())]).map Prod.fst ↔ 0 ≤ d ∧ d ≤ 0) :=
  claim_C3_daily_alignment [((some 0 : Option Int), ())]
    [((some 0 : Option Int), ())] 0 0 (by decide) (by decide) (by decide)
    (by decide) (by decide)

/-- C4 counterexample: the MACD line is not a difference of rolling-window
means.  For the close series `[0, 1]` with fast window 1, slow window 2 and
signal window 1 (length ≥ slow window, so the guard passes), the code
computes `1/3` at index 1 via exponentially weighted means, while the
spec's rolling-mean reading gives `1/2`. -/
theorem claim_C4_macd_rolling_counterexample :
    (TechnicalAnalysis.calculate_macd [0, 1] 1 2 1).1.getD 1 none = some (1/3) ∧
    (TechnicalAnalysis.macdLineSpecRolling [0, 1] 1 2).getD 1 none = some (1/2) ∧
    ((1 : ℚ)/3) ≠ ((1 : ℚ)/2) := by
  refine ⟨?_, ?_, by norm_num⟩
  · norm_num [TechnicalAnalysis.calculate_macd, Common.ewmMean, Common.ewmAux]
  · norm_num [TechnicalAnalysis.macdLineSpecRolling, Common.rollMeanAt,
      List.range_succ]

/-- C4 (amended): for a close series at least as long as the slow window,
the MACD line is the difference of the fast-span and slow-span
exponentially weighted means (`ewm(span, adjust=False)`, the pandas
recurrence below) — not rolling-window means — the signal line is the
signal-span EWM of the MACD line, and the histogram is their difference. -/
theorem claim_C4_macd_ewm_amended (data : List ℚ) (f sl sg : Nat)
    (h : sl ≤ data.length) :
    ((TechnicalAnalysis.calculate_macd data f sl sg).1 =
      ((Common.ewmMean f data).zipWith (· - ·) (Common.ewmMean sl data)).map some) ∧
    ((TechnicalAnalysis.calculate_macd data f sl sg).2.1 =
      (Common.ewmMean sg
        ((Common.ewmMean f data).zipWith (· - ·) (Common.ewmMean sl data))).map some) ∧
    ((TechnicalAnalysis.calculate_macd data f sl sg).2.2 =
      (((Common.ewmMean f data).zipWith (· - ·) (Common.ewmMean sl data)).zipWith
          (· - ·)
          (Common.ewmMean sg
            ((Common.ewmMean f data).zipWith (· - ·)
              (Common.ewmMean sl data)))).map some) ∧
    (∀ (span : Nat) (xs : List ℚ) (i : Nat), i + 1 < xs.length →
      (Common.ewmMean span xs).getD (i + 1) 0 =
        2 / ((span : ℚ) + 1) * xs.getD (i + 1) 0 +
          (1 - 2 / ((span : ℚ) + 1)) * (Common.ewmMean span xs).getD i 0) ∧
    (∀ (span : Nat) (x : ℚ) (xs : List ℚ),
      (Common.ewmMean span (x :: xs)).getD 0 0 = x) := by
  have hng : ¬ data.length < sl := Nat.not_lt.mpr h
  refine ⟨?_, ?_, ?_, fun span xs i hi => ewmMean_recurrence span xs i hi,
    fun span x xs => by simp [Common.ewmMean]⟩
  · simp [TechnicalAnalysis.calculate_macd, hng]
  · simp [TechnicalAnalysis.calculate_macd, hng]
  · simp [TechnicalAnalysis.calculate_macd, hng]

/-- C4 witness: the amended statement at the concrete series `[0, 1]` with
windows 1/2/1. -/
theorem claim_C4_macd_ewm_amended_witness :
    ((TechnicalAnalysis.calculate_macd [0, 1] 1 2 1).1 =
      ((Common.ewmMean 1 [0, 1]).zipWith (· - ·) (Common.ewmMean 2 [0, 1])).map some) ∧
    ((TechnicalAnalysis.calculate_macd [0, 1] 1 2 1).2.1 =
      (Common.ewmMean 1
        ((Common.ewmMean 1 [0, 1]).zipWith (· - ·) (Common.ewmMean 2 [0, 1]))).map some) ∧
    ((TechnicalAnalysis.calculate_macd [0, 1] 1 2 1).2.2 =
      (((Common.ewmMean 1 [0, 1]).zipWith (· - ·) (Common.ewmMean 2 [0, 1])).zipWith
          (· - ·)
          (Common.ewmMean 1
            ((Common.ewmMean 1 [0, 1]).zipWith (· - ·)
              (Common.ewmMean 2 [0, 1])))).map some) ∧
    (∀ (span : Nat) (xs : List ℚ) (i : Nat), i + 1 < xs.length →
      (Common.ewmMean span xs).getD (i + 1) 0 =
        2 / ((span : ℚ) + 1) * xs.getD (i + 1) 0 +
          (1 - 2 / ((span : ℚ) + 1)) * (Common.ewmMean span xs).getD i 0) ∧
    (∀ (span : Nat) (x : ℚ) (xs : List ℚ),
      (Common.ewmMean span (x :: xs)).getD 0 0 = x) :=
  claim_C4_macd_ewm_amended [0, 1] 1 2 1 (by decide)

/-- Helper: renaming `Date → ds`, `Close → y` does not affect membership of
other column names. -/
theorem mem_renameCols_iff (cols : List String) (f : String)
    (h1 : f ≠ "ds") (h2 : f ≠ "y") (h3 : f ≠ "Date") (h4 : f ≠ "Close") :
    f ∈ ProphetModel.renameCols cols ↔ f ∈ cols := by
  unfold ProphetModel.renameCols
  rw [List.mem_map]
  constructor
  · rintro ⟨c0, hc0, heq⟩
    by_cases hD : c0 = "Date"
    · subst hD
      rw [if_pos rfl] at heq
      exact absurd heq.symm h1
    · by_cases hC : c0 = "Close"
      · subst hC
        rw [if_neg hD, if_pos rfl] at heq
        exact absurd heq.symm h2
      · rw [if_neg hD, if_neg hC] at heq
        exact heq ▸ hc0
  · intro hf
    exact ⟨f, hf, by rw [if_neg h3, if_neg h4]⟩

/-- C5 counterexample: for TSLA the cap is not `max Close * cap_multiplier`
of the input data.  With a single row dated before 2020-08-31 and close 10,
the code first multiplies the pre-split close by 5 and then caps at
`50 * 2.5 = 125`, not the claimed `10 * 2.5 = 25`. -/
theorem claim_C5_tsla_cap_counterexample :
    (ProphetModel.train_prophet_config "TSLA" ["Date", "Close"]
        [(some 0, 10)]).map (fun c => c.cap) = some 125 ∧
    ((125 : ℚ) ≠ 10 * (5/2)) := by
  constructor
  · simp only [ProphetModel.train_prophet_config, ProphetModel.tickerParams,
      ProphetModel.adjustClose, ProphetModel.maxClose, ProphetModel.splitDate,
      List.filterMap_cons, List.filterMap_nil, Option.map_some, List.map_cons,
      List.map_nil, List.foldl_cons, List.foldl_nil]
    norm_num
  · norm_num

/-- C5 (amended): `train_prophet_model` configures Prophet with the claimed
ticker-specific hyperparameters (TSLA 2.5/0.05, AAPL 2.0/0.1, default
2.0/0.08, all multiplicative), logistic growth with floor 0, each of RSI,
MACD, Interest_Rate as a regressor exactly when that column is present, and
cap equal to `cap_multiplier` times the maximum of the Close column *after*
the TSLA pre-2020-08-31 split adjustment (pre-split closes times 5; the
input Close for every other ticker). -/
theorem claim_C5_prophet_config_amended (ticker : String) (cols : List String)
    (rows : List (Option Int × ℚ))
    (hd : "Date" ∈ cols) (hc : "Close" ∈ cols) :
    ∃ c, ProphetModel.train_prophet_config ticker cols rows = some c ∧
      c.growth = "logistic" ∧
      c.floorVal = 0 ∧
      c.changepointPriorScale = (ProphetModel.tickerParams ticker).changepointPriorScale ∧
      c.seasonalityMode = (ProphetModel.tickerParams ticker).seasonalityMode ∧
      c.cap = ProphetModel.maxClose (ProphetModel.adjustClose ticker
          (rows.filterMap (fun r => r.1.map (fun d => (d, r.2))))) *
        (ProphetModel.tickerParams ticker).capMultiplier ∧
      (∀ f ∈ ProphetModel.regressorFeatures, (f ∈ c.regressors ↔ f ∈ cols)) ∧
      ProphetModel.tickerParams "TSLA" = ⟨5/2, 1/20, "multiplicative"⟩ ∧
      ProphetModel.tickerParams "AAPL" = ⟨2, 1/10, "multiplicative"⟩ ∧
      (ticker ≠ "TSLA" → ticker ≠ "AAPL" →
        ProphetModel.tickerParams ticker = ⟨2, 2/25, "multiplicative"⟩) := by
  unfold ProphetModel.train_prophet_config
  rw [if_pos ⟨hd, hc⟩]
  refine ⟨_, rfl, rfl, rfl, rfl, rfl, rfl, ?_, rfl, rfl, ?_⟩
  · intro f hf
    have hne : f ≠ "ds" ∧ f ≠ "y" ∧ f ≠ "Date" ∧ f ≠ "Close" := by
      have hf2 := hf
      simp only [ProphetModel.regressorFeatures, List.mem_cons,
        List.not_mem_nil, or_false] at hf2
      rcases hf2 with rfl | rfl | rfl
      · exact ⟨by decide, by decide, by decide, by decide⟩
      · exact ⟨by decide, by decide, by decide, by decide⟩
      · exact ⟨by decide, by decide, by decide, by decide⟩
    have hiff := mem_renameCols_iff cols f hne.1 hne.2.1 hne.2.2.1 hne.2.2.2
    rw [List.mem_filter]
    constructor
    · rintro ⟨-, hm⟩
      exact hiff.mp (by simpa using hm)
    · intro hfc
      exact ⟨hf, by simpa using hiff.mpr hfc⟩
  · intro hT hA
    unfold ProphetModel.tickerParams
    rw [if_neg hT, if_neg hA]

/-- C5 witness: the amended statement applied to AAPL with columns
Date/Close/RSI and one row. -/
theorem claim_C5_prophet_config_amended_witness :
    ∃ c, ProphetModel.train_prophet_config "AAPL" ["Date", "Close", "RSI"]
        [(some 0, 4)] = some c ∧
      c.growth = "logistic" ∧
      c.floorVal = 0 ∧
      c.changepointPriorScale = (ProphetModel.tickerParams "AAPL").changepointPriorScale ∧
      c.seasonalityMode = (ProphetModel.tickerParams "AAPL").seasonalityMode ∧
      c.cap = ProphetModel.maxClose (ProphetModel.adjustClose "AAPL"
          (([(some 0, 4)] : List (Option Int × ℚ)).filterMap
            (fun r => r.1.map (fun d => (d, r.2))))) *
        (ProphetModel.tickerParams "AAPL").capMultiplier ∧
      (∀ f ∈ ProphetModel.regressorFeatures,
        (f ∈ c.regressors ↔ f ∈ ["Date", "Close", "RSI"])) ∧
      ProphetModel.tickerParams "TSLA" = ⟨5/2, 1/20, "multiplicative"⟩ ∧
      ProphetModel.tickerParams "AAPL" = ⟨2, 1/10, "multiplicative"⟩ ∧
      ("AAPL" ≠ "TSLA" → "AAPL" ≠ "AAPL" →
        ProphetModel.tickerParams "AAPL" = ⟨2, 2/25, "multiplicative"⟩) :=
  claim_C5_prophet_config_amended "AAPL" ["Date", "Close", "RSI"]
    [(some 0, 4)] (by decide) (by decide)

/-- C6 counterexample: not every job execution persists state.  A job run
while the daily 15-post limit is reached (15 posts already published today)
returns without calling `save_state` at all. -/
theorem claim_C6_skip_no_persist_counterexample :
    (AutoPublisher.jobStep ⟨["AAPL"], 1, 0, true, true⟩
        ⟨["AAPL"], [], -1, 15, some 0, 0⟩).2 = none ∧
    (AutoPublisher.resetPosts ⟨["AAPL"], 1, 0, true, true⟩
        ⟨["AAPL"], [], -1, 15, some 0, 0⟩ = 15) := by
  constructor
  · rfl
  · rfl

/-- C6 (amended): `run_job_and_reschedule` always schedules the next job
with the fresh `randint(MIN, MAX)` draw (so the delay lies in
`[MIN, MAX]` whenever the draw does); every job that is *not* skipped by
the daily 15-post limit ends by persisting exactly the current
pending-ticker list, last writer index and failed-ticker retry list (a
skipped job persists nothing); and `load_state` restores pending and failed
lists filtered against the master ticker list (re-seeding an emptied
pending list from the master list), clamps an out-of-range writer index to
-1, and falls back to the default state when no readable state file
exists. -/
theorem claim_C6_scheduler_amended
    (env : AutoPublisher.PubEnv) (s : AutoPublisher.PubState)
    (randDraw minI maxI : Nat) (master : List String) (nW : Nat)
    (r : AutoPublisher.SavedState) :
    ((AutoPublisher.runJobAndReschedule env s randDraw).1 =
        AutoPublisher.jobStep env s ∧
      (AutoPublisher.runJobAndReschedule env s randDraw).2 = randDraw ∧
      (minI ≤ randDraw → randDraw ≤ maxI →
        minI ≤ (AutoPublisher.runJobAndReschedule env s randDraw).2 ∧
          (AutoPublisher.runJobAndReschedule env s randDraw).2 ≤ maxI)) ∧
    (AutoPublisher.resetPosts env s < 15 →
      ∃ sv, (AutoPublisher.jobStep env s).2 = some sv ∧
        sv.pending = (AutoPublisher.jobStep env s).1.pending ∧
        sv.failed = (AutoPublisher.jobStep env s).1.failed ∧
        sv.lastWriterIdx = (AutoPublisher.jobStep env s).1.lastWriterIdx) ∧
    (15 ≤ AutoPublisher.resetPosts env s →
      (AutoPublisher.jobStep env s).2 = none) ∧
    ((AutoPublisher.loadState master nW (some r)).failed =
        r.failed.filter (fun t => master.contains t) ∧
      (AutoPublisher.loadState master nW (some r)).pending =
        (let p := r.pending.filter (fun t => master.contains t)
         if p.isEmpty && !master.isEmpty then master else p) ∧
      ((AutoPublisher.loadState master nW (some r)).lastWriterIdx = -1 ∨
        (-1 ≤ (AutoPublisher.loadState master nW (some r)).lastWriterIdx ∧
          (AutoPublisher.loadState master nW (some r)).lastWriterIdx < (nW : Int))) ∧
      AutoPublisher.loadState master nW none = ⟨master, -1, []⟩) := by
  refine ⟨⟨rfl, rfl, fun h1 h2 => ⟨h1, h2⟩⟩, ?_, ?_, ?_, ?_, ?_, rfl⟩
  · intro hlt
    have hn : ¬ 15 ≤ AutoPublisher.resetPosts env s := Nat.not_le.mpr hlt
    simp only [AutoPublisher.jobStep]
    rw [if_neg hn]
    split
    · exact ⟨_, rfl, rfl, rfl, rfl⟩
    · exact ⟨_, rfl, rfl, rfl, rfl⟩
  · intro hge
    simp only [AutoPublisher.jobStep]
    rw [if_pos hge]
  · rfl
  · rfl
  · unfold AutoPublisher.loadState
    by_cases h : r.lastWriterIdx < -1 ∨ (nW : Int) ≤ r.lastWriterIdx
    · left
      simp only [if_pos h]
    · right
      simp only [if_neg h]
      omega

/-- C6 witness: a non-skipped job persists exactly the final pending list,
writer index and retry list. -/
theorem claim_C6_scheduler_amended_witness :
    ∃ sv, (AutoPublisher.jobStep ⟨["AAPL"], 2, 5, true, true⟩
        ⟨["AAPL"], [], -1, 0, none, 0⟩).2 = some sv ∧
      sv.pending = (AutoPublisher.jobStep ⟨["AAPL"], 2, 5, true, true⟩
        ⟨["AAPL"], [], -1, 0, none, 0⟩).1.pending ∧
      sv.failed = (AutoPublisher.jobStep ⟨["AAPL"], 2, 5, true, true⟩
        ⟨["AAPL"], [], -1, 0, none, 0⟩).1.failed ∧
      sv.lastWriterIdx = (AutoPublisher.jobStep ⟨["AAPL"], 2, 5, true, true⟩
        ⟨["AAPL"], [], -1, 0, none, 0⟩).1.lastWriterIdx :=
  (claim_C6_scheduler_amended ⟨["AAPL"], 2, 5, true, true⟩
      ⟨["AAPL"], [], -1, 0, none, 0⟩ 1 1 2 ["AAPL"] 2 ⟨["AAPL"], 5, []⟩).2.1
    (by decide)

/-- C7: the `/generate` route returns HTTP 400 with a JSON error payload —
without invoking any pipeline — for non-JSON requests and for tickers that
are empty or fail the `^[A-Z0-9^.-]+$` pattern after strip/upper-casing;
when the pipeline succeeds and the report file is saved it returns status
`success` with the viewer URL of the report (on both the original and the
WordPress branch). -/
theorem claim_C7_generate_route (env : AppRoutes.GenEnv)
    (req : AppRoutes.GenRequest) (fileName : String) :
    (req.isJson = false →
      AppRoutes.generate_report env req = ⟨400, "error", none, false⟩) ∧
    (req.isJson = true →
      AppRoutes.validTicker (AppRoutes.cleanTicker req.ticker) = false →
      AppRoutes.generate_report env req = ⟨400, "error", none, false⟩) ∧
    (req.isJson = true →
      AppRoutes.validTicker (AppRoutes.cleanTicker req.ticker) = true →
      AppRoutes.pyStrip req.siteName ≠ "moneystockers" →
      env.orig.raisedE = false → env.orig.savedFile = some fileName →
      AppRoutes.generate_report env req =
        ⟨200, "success",
         some (AppRoutes.viewerUrlFor (AppRoutes.cleanTicker req.ticker)
           (AppRoutes.staticUrlFor fileName)), true⟩) ∧
    (req.isJson = true →
      AppRoutes.validTicker (AppRoutes.cleanTicker req.ticker) = true →
      AppRoutes.pyStrip req.siteName = "moneystockers" →
      env.wp.raisedE = false → env.wp.htmlOk = true → env.wp.saveOk = true →
      AppRoutes.generate_report env req =
        ⟨200, "success",
         some (AppRoutes.viewerUrlFor (AppRoutes.cleanTicker req.ticker)
           (AppRoutes.staticUrlFor (AppRoutes.cleanTicker req.ticker ++
             "_wp_asset_" ++ env.timestamp ++ ".html"))), true⟩) := by
  obtain ⟨⟨osave, ohtml, oraise⟩, ⟨whtml, wsave, wraise⟩, ts⟩ := env
  obtain ⟨isJson, ticker, siteName⟩ := req
  refine ⟨?_, ?_, ?_, ?_⟩
  · intro h
    simp only at h
    subst h
    simp [AppRoutes.generate_report]
  · intro h1 h2
    simp only at h1 h2
    subst h1
    simp [AppRoutes.generate_report, h2]
  · intro h1 h2 h3 h4 h5
    simp only at h1 h2 h3 h4 h5
    subst h1
    simp [AppRoutes.generate_report, h2, h3, h4, h5]
  · intro h1 h2 h3 h4 h5 h6
    simp only at h1 h2 h3 h4 h5 h6
    subst h1
    simp [AppRoutes.generate_report, h2, h3, h4, h5, h6]

/-- C7 witness: a JSON request for ` aapl ` on the original pipeline with a
saved report file gets HTTP 200 / `success` with its viewer URL; its
validation hypotheses hold concretely. -/
theorem claim_C7_generate_route_witness :
    AppRoutes.generate_report
        ⟨⟨some "r.html", true, false⟩, ⟨false, false, false⟩, "1"⟩
        ⟨true, " aapl ", ""⟩ =
      ⟨200, "success",
       some (AppRoutes.viewerUrlFor (AppRoutes.cleanTicker " aapl ")
         (AppRoutes.staticUrlFor "r.html")), true⟩ :=
  (claim_C7_generate_route
      ⟨⟨some "r.html", true, false⟩, ⟨false, false, false⟩, "1"⟩
      ⟨true, " aapl ", ""⟩ "r.html").2.2.1 rfl (by decide) (by decide) rfl rfl

/-- C8: `fetch_macro_indicators` never propagates a download failure: with
an unusable cache, a missing FRED API key, a failing FRED call or an empty
FRED result all return the synthetic fallback frame — one row per day of
the requested range, `Interest_Rate = linspace(0.5, 5.5, n)`,
`SP500 = geomspace(50, 4500, n)` plus the two 30-day moving-average
columns, none of it NaN so `dropna` keeps every row — with no exception
raised. -/
theorem claim_C8_macro_fallback (env : MacroData.MacroEnv) (s e : Int)
    (hcache : env.cacheUsable = false)
    (hfail : env.apiKeySet = false ∨ env.dl = .err ∨
      (∃ f, env.dl = .ok f ∧ f.dates = [])) :
    ((MacroData.fetch_macro_indicators env s e).out =
        .fallback (MacroData.dropnaF (MacroData.fallbackFrame s e)) ∧
      (MacroData.fetch_macro_indicators env s e).raised = false) ∧
    MacroData.dropnaF (MacroData.fallbackFrame s e) =
      MacroData.fallbackFrame s e ∧
    (MacroData.fallbackFrame s e).dates = Common.dateRange s e ∧
    (s ≤ e →
      (MacroData.fallbackFrame s e).dates.length = (e - s + 1).toNat) ∧
    (MacroData.fallbackFrame s e).interest =
      (Common.np_linspace (1/2) (11/2) (Common.dateRange s e).length).map .rat ∧
    (MacroData.fallbackFrame s e).sp500 =
      (List.range (Common.dateRange s e).length).map
        (fun i => MacroData.MVal.geomsp 50 4500 i (Common.dateRange s e).length) ∧
    (MacroData.fallbackFrame s e).interestMA =
      (Common.rollMeanMin1 30
        (Common.np_linspace (1/2) (11/2) (Common.dateRange s e).length)).map .rat := by
  obtain ⟨cu, cf, ak, d⟩ := env
  simp only at hcache
  subst hcache
  refine ⟨?_, MacroData.dropnaF_fallback s e, rfl, ?_, ?_, rfl, ?_⟩
  · rcases hfail with h | h | ⟨f, h, hemp⟩ <;> simp only at h
    · subst h
      simp [MacroData.fetch_macro_indicators]
    · subst h
      simp only [MacroData.fetch_macro_indicators]
      cases ak <;> simp
    · subst h
      simp only [MacroData.fetch_macro_indicators]
      cases ak <;> simp [hemp]
  · intro hse
    exact Preprocessing.dateRange_length s e hse
  · rfl
  · simp only [MacroData.fallbackFrame]
    exact MacroData.bfillM_rat_map _

/-- C8 witness: the fallback trace and frame shape at the concrete range
day 0 to day 2 with no API key. -/
theorem claim_C8_macro_fallback_witness :
    ((MacroData.fetch_macro_indicators
        ⟨false, ⟨[], [], [], [], []⟩, false, .err⟩ 0 2).out =
      .fallback (MacroData.dropnaF (MacroData.fallbackFrame 0 2)) ∧
      (MacroData.fetch_macro_indicators
        ⟨false, ⟨[], [], [], [], []⟩, false, .err⟩ 0 2).raised = false) ∧
    MacroData.dropnaF (MacroData.fallbackFrame 0 2) =
      MacroData.fallbackFrame 0 2 ∧
    (MacroData.fallbackFrame 0 2).dates = Common.dateRange 0 2 ∧
    ((0 : Int) ≤ 2 →
      (MacroData.fallbackFrame 0 2).dates.length = ((2 : Int) - 0 + 1).toNat) ∧
    (MacroData.fallbackFrame 0 2).interest =
      (Common.np_linspace (1/2) (11/2) (Common.dateRange 0 2).length).map .rat ∧
    (MacroData.fallbackFrame 0 2).sp500 =
      (List.range (Common.dateRange 0 2).length).map
        (fun i => MacroData.MVal.geomsp 50 4500 i (Common.dateRange 0 2).length) ∧
    (MacroData.fallbackFrame 0 2).interestMA =
      (Common.rollMeanMin1 30
        (Common.np_linspace (1/2) (11/2) (Common.dateRange 0 2).length)).map .rat :=
  claim_C8_macro_fallback ⟨false, ⟨[], [], [], [], []⟩, false, .err⟩ 0 2 rfl
    (Or.inl rfl)

/-- Helper: gains are non-negative. -/
theorem gainAt_nonneg (data : List (Option ℚ)) (i : Nat) :
    0 ≤ TechnicalAnalysis.gainAt data i := by
  unfold TechnicalAnalysis.gainAt
  cases TechnicalAnalysis.deltaAt data i with
  | none => simp
  | some x =>
    by_cases h : 0 < x
    · simpa [h] using h.le
    · simp [h]

/-- Helper: losses are non-negative. -/
theorem lossAt_nonneg (data : List (Option ℚ)) (i : Nat) :
    0 ≤ TechnicalAnalysis.lossAt data i := by
  unfold TechnicalAnalysis.lossAt
  cases TechnicalAnalysis.deltaAt data i with
  | none => simp
  | some x =>
    by_cases h : x < 0
    · simp only [h, if_true]
      linarith
    · simp [h]

/-- Helper: a defined rolling mean of a non-negative sequence is
non-negative. -/
theorem rollMeanAt_nonneg (f : Nat → ℚ) (w i : Nat) (hf : ∀ j, 0 ≤ f j)
    (m : ℚ) (h : Common.rollMeanAt f w i = some m) : 0 ≤ m := by
  unfold Common.rollMeanAt at h
  by_cases hlt : i + 1 < w
  · rw [if_pos hlt] at h
    exact absurd h (by simp)
  · rw [if_neg hlt] at h
    have hm : (((List.range w).map (fun j => f (i + 1 - w + j))).sum) / (w : ℚ) = m := by
      simpa using h
    subst hm
    apply div_nonneg
    · apply List.sum_nonneg
      intro x hx
      obtain ⟨j, _, rfl⟩ := List.mem_map.mp hx
      exact hf _
    · exact Nat.cast_nonneg w

/-- Helper: after `replace(0, 1e-10)` the rolling loss is strictly
positive wherever defined. -/
theorem lossRepAt_pos (data : List (Option ℚ)) (w i : Nat) (y : ℚ)
    (h : TechnicalAnalysis.lossRepAt data w i = some y) : 0 < y := by
  unfold TechnicalAnalysis.lossRepAt at h
  cases hr : Common.rollMeanAt (TechnicalAnalysis.lossAt data) w i with
  | none => rw [hr] at h; exact absurd h (by simp)
  | some m =>
    rw [hr] at h
    simp only [Option.map_some', Option.some.injEq] at h
    have hm : 0 ≤ m := rollMeanAt_nonneg _ w i (lossAt_nonneg data) m hr
    by_cases h0 : m = 0
    · rw [if_pos h0] at h
      rw [← h]
      norm_num
    · rw [if_neg h0] at h
      rw [← h]
      exact lt_of_le_of_ne hm (Ne.symm h0)

/-- C9: `calculate_rsi` is total on numeric inputs: all-null or short
series yield the all-NaN series over the same index; every divisor
(rolling loss after `replace(0, 1e-10)`) is strictly positive, so no
division by zero occurs; and every non-NaN RSI value lies in `[0, 100)`. -/
theorem claim_C9_rsi_safety (data : List (Option ℚ)) (w : Nat) :
    ((∀ x ∈ data, x = none) ∨ data.length < w + 1 →
      TechnicalAnalysis.calculate_rsi data w =
        List.replicate data.length none) ∧
    (∀ (i : Nat) (y : ℚ),
      TechnicalAnalysis.lossRepAt data w i = some y → 0 < y) ∧
    (∀ (i : Nat) (x : ℚ),
      (TechnicalAnalysis.calculate_rsi data w).getD i none = some x →
        0 ≤ x ∧ x < 100) := by
  refine ⟨?_, fun i y h => lossRepAt_pos data w i y h, ?_⟩
  · intro h
    unfold TechnicalAnalysis.calculate_rsi
    rw [if_pos h]
  · intro i x h
    unfold TechnicalAnalysis.calculate_rsi at h
    split at h
    · rcases Nat.lt_or_ge i data.length with hi | hi
      · rw [List.getD_eq_getElem?_getD, List.getElem?_replicate, if_pos hi] at h
        exact absurd h (by simp)
      · rw [List.getD_eq_getElem?_getD, List.getElem?_replicate,
          if_neg (Nat.not_lt.mpr hi)] at h
        exact absurd h (by simp)
    · rcases Nat.lt_or_ge i data.length with hi | hi
      · rw [List.getD_eq_getElem?_getD, List.getElem?_map,
          List.getElem?_range hi] at h
        simp only [Option.map_some', Option.getD_some] at h
        unfold TechnicalAnalysis.rsiAt at h
        cases hrs : TechnicalAnalysis.rsAt data w i with
        | none => rw [hrs] at h; exact absurd h (by simp)
        | some r =>
          rw [hrs] at h
          simp only [Option.map_some', Option.some.injEq] at h
          unfold TechnicalAnalysis.rsAt at hrs
          cases hg : Common.rollMeanAt (TechnicalAnalysis.gainAt data) w i with
          | none => rw [hg] at hrs; exact absurd hrs (by simp)
          | some g =>
            cases hl : TechnicalAnalysis.lossRepAt data w i with
            | none => rw [hg, hl] at hrs; exact absurd hrs (by simp)
            | some l =>
              rw [hg, hl] at hrs
              simp only [Option.some.injEq] at hrs
              have hg0 : 0 ≤ g := rollMeanAt_nonneg _ w i (gainAt_nonneg data) g hg
              have hl0 : 0 < l := lossRepAt_pos data w i l hl
              have hr0 : 0 ≤ r := by
                rw [← hrs]
                exact div_nonneg hg0 hl0.le
              have hpos : 0 < 100 / (1 + r) := by
                apply div_pos
                · norm_num
                · linarith
              have hle : 100 / (1 + r) ≤ 100 := by
                apply div_le_self
                · norm_num
                · linarith
              constructor
              · rw [← h]; linarith
              · rw [← h]; linarith
      · rw [List.getD_eq_getElem?_getD, List.getElem?_map,
          List.getElem?_eq_none (by simpa using hi)] at h
        exact absurd h (by simp)

/-- C9 witness: the all-NaN guard on an all-null series, a concrete
positive divisor, and a concrete in-range RSI value. -/
theorem claim_C9_rsi_safety_witness :
    TechnicalAnalysis.calculate_rsi [none] 14 = List.replicate 1 none ∧
    (0 : ℚ) < 1 ∧
    (0 ≤ (0 : ℚ) ∧ (0 : ℚ) < 100) := by
  refine ⟨(claim_C9_rsi_safety [none] 14).1 (Or.inl (by simp)), ?_, ?_⟩
  · exact (claim_C9_rsi_safety [some 1, some 3, some 2] 1).2.1 2 1 (by
      norm_num [TechnicalAnalysis.lossRepAt, Common.rollMeanAt,
        TechnicalAnalysis.lossAt, TechnicalAnalysis.deltaAt, List.range_succ])
  · exact (claim_C9_rsi_safety [some 1, some 3, some 2] 1).2.2 2 0 (by
      norm_num [TechnicalAnalysis.calculate_rsi, TechnicalAnalysis.rsiAt,
        TechnicalAnalysis.rsAt, TechnicalAnalysis.lossRepAt,
        Common.rollMeanAt, TechnicalAnalysis.gainAt,
        TechnicalAnalysis.lossAt, TechnicalAnalysis.deltaAt, List.range_succ]
      rw [if_neg (by simp)]
      rfl)

/-- Helper: the first component of `spanPeriod` is drawn from the input. -/
theorem spanPeriod_fst_sub (f : Int → Int) (p : Int) :
    ∀ (l : List ProphetModel.FRow) (x : ProphetModel.FRow),
      x ∈ (ProphetModel.spanPeriod f p l).1 → x ∈ l := by
  intro l
  induction l with
  | nil => intro x hx; simp [ProphetModel.spanPeriod] at hx
  | cons r rs ih =>
    intro x hx
    unfold ProphetModel.spanPeriod at hx
    by_cases h : f r.ds = p
    · rw [if_pos h] at hx
      rcases List.mem_cons.mp hx with rfl | hx2
      · exact List.mem_cons_self _ _
      · exact List.mem_cons_of_mem _ (ih x hx2)
    · rw [if_neg h] at hx
      simp at hx

/-- Helper: the second component of `spanPeriod` is drawn from the input. -/
theorem spanPeriod_snd_sub (f : Int → Int) (p : Int) :
    ∀ (l : List ProphetModel.FRow) (x : ProphetModel.FRow),
      x ∈ (ProphetModel.spanPeriod f p l).2 → x ∈ l := by
  intro l
  induction l with
  | nil => intro x hx; simp [ProphetModel.spanPeriod] at hx
  | cons r rs ih =>
    intro x hx
    unfold ProphetModel.spanPeriod at hx
    by_cases h : f r.ds = p
    · rw [if_pos h] at hx
      exact List.mem_cons_of_mem _ (ih x hx)
    · rw [if_neg h] at hx
      exact hx

/-- Helper: every row of every chunk comes from the input rows. -/
theorem chunkByPeriod_sub (f : Int → Int) :
    ∀ (n : Nat) (l : List ProphetModel.FRow), l.length ≤ n →
      ∀ c ∈ ProphetModel.chunkByPeriod f l, ∀ x ∈ c, x ∈ l := by
  intro n
  induction n with
  | zero =>
    intro l hl c hc x hx
    have hnil : l = [] := List.length_eq_zero.mp (Nat.le_zero.mp hl)
    subst hnil
    simp [ProphetModel.chunkByPeriod] at hc
  | succ m ih =>
    intro l hl c hc x hx
    cases l with
    | nil => simp [ProphetModel.chunkByPeriod] at hc
    | cons r rs =>
      rw [ProphetModel.chunkByPeriod] at hc
      rcases List.mem_cons.mp hc with rfl | hc2
      · rcases List.mem_cons.mp hx with rfl | hx2
        · exact List.mem_cons_self _ _
        · exact List.mem_cons_of_mem _ (spanPeriod_fst_sub f (f r.ds) rs x hx2)
      · have hlen : (ProphetModel.spanPeriod f (f r.ds) rs).2.length ≤ m :=
          le_trans (ProphetModel.spanPeriod_snd_length f (f r.ds) rs)
            (Nat.succ_le_succ_iff.mp hl)
        have hmem := ih _ hlen c hc2 x hx
        exact List.mem_cons_of_mem _ (spanPeriod_snd_sub f (f r.ds) rs x hmem)

/-- Helper: a min-fold over non-negatives stays non-negative. -/
theorem foldl_min_nonneg (l : List ℚ) :
    ∀ init : ℚ, 0 ≤ init → (∀ x ∈ l, 0 ≤ x) → 0 ≤ l.foldl min init := by
  induction l with
  | nil => intro init h0 _; exact h0
  | cons a t ih =>
    intro init h0 h
    exact ih _ (le_min h0 (h a (List.mem_cons_self a t)))
      (fun x hx => h x (List.mem_cons_of_mem a hx))

/-- Helper: a max-fold over non-negatives stays non-negative. -/
theorem foldl_max_nonneg (l : List ℚ) :
    ∀ init : ℚ, 0 ≤ init → (∀ x ∈ l, 0 ≤ x) → 0 ≤ l.foldl max init := by
  induction l with
  | nil => intro init h0 _; exact h0
  | cons a t ih =>
    intro init h0 h
    exact ih _ (le_trans h0 (le_max_left init a))
      (fun x hx => h x (List.mem_cons_of_mem a hx))

/-- Helper: aggregating non-negative clipped predictions yields
non-negative Low/Average/High. -/
theorem aggForecastTbl_nonneg (f : Int → Int) (rows : List ProphetModel.FRow)
    (h : ∀ r ∈ rows, 0 ≤ r.ylo ∧ 0 ≤ r.yhat ∧ 0 ≤ r.yhi) :
    ∀ a ∈ ProphetModel.aggForecastTbl f rows,
      0 ≤ a.low ∧ 0 ≤ a.avg ∧ 0 ≤ a.high := by
  intro a ha
  unfold ProphetModel.aggForecastTbl at ha
  rcases List.mem_filterMap.mp ha with ⟨c, hc, hac⟩
  have hsub := chunkByPeriod_sub f rows.length rows (le_refl _) c hc
  cases c with
  | nil => simp [ProphetModel.aggOfChunk] at hac
  | cons r rs =>
    simp only [ProphetModel.aggOfChunk, Option.some.injEq] at hac
    subst hac
    have hr := h r (hsub r (List.mem_cons_self r rs))
    have hrs : ∀ y ∈ rs, 0 ≤ y.ylo ∧ 0 ≤ y.yhat ∧ 0 ≤ y.yhi :=
      fun y hy => h y (hsub y (List.mem_cons_of_mem r hy))
    refine ⟨?_, ?_, ?_⟩
    · exact foldl_min_nonneg _ _ hr.1 (fun x hx => by
        obtain ⟨y, hy, rfl⟩ := List.mem_map.mp hx
        exact (hrs y hy).1)
    · apply div_nonneg
      · apply List.sum_nonneg
        intro x hx
        obtain ⟨y, hy, rfl⟩ := List.mem_map.mp hx
        rcases List.mem_cons.mp hy with rfl | hy2
        · exact hr.2.1
        · exact (hrs y hy2).2.1
      · positivity
    · exact foldl_max_nonneg _ _ hr.2.2 (fun x hx => by
        obtain ⟨y, hy, rfl⟩ := List.mem_map.mp hx
        exact (hrs y hy).2.2)

/-- C10: in the aggregated tables returned by `train_prophet_model`, when
both tables are non-empty the first forecast row's Low, Average and High
are all overwritten with the Average of the last actual row (the later
rows are untouched), and all Prophet predictions are clipped at zero
before aggregation, so every pre-smoothing aggregated value is
non-negative. -/
theorem claim_C10_forecast_join_and_clip (periodOf : Int → Int)
    (actualRows : List (Int × ℚ)) (fcRows : List ProphetModel.FRow)
    (lastDate : Int) :
    ((ProphetModel.prophetTables periodOf actualRows fcRows lastDate).1 ≠ [] →
      ProphetModel.aggForecastTbl periodOf
          ((fcRows.map ProphetModel.clipRow).filter
            (fun r => lastDate ≤ r.ds)) ≠ [] →
      ∃ la,
        (ProphetModel.prophetTables periodOf actualRows fcRows
            lastDate).1.getLast? = some la ∧
        (ProphetModel.prophetTables periodOf actualRows fcRows
            lastDate).2.head?.map ProphetModel.AggRow.low = some la.avg ∧
        (ProphetModel.prophetTables periodOf actualRows fcRows
            lastDate).2.head?.map ProphetModel.AggRow.avg = some la.avg ∧
        (ProphetModel.prophetTables periodOf actualRows fcRows
            lastDate).2.head?.map ProphetModel.AggRow.high = some la.avg ∧
        (ProphetModel.prophetTables periodOf actualRows fcRows
            lastDate).2.tail =
          (ProphetModel.aggForecastTbl periodOf
            ((fcRows.map ProphetModel.clipRow).filter
              (fun r => lastDate ≤ r.ds))).tail) ∧
    (∀ a ∈ ProphetModel.aggForecastTbl periodOf
        ((fcRows.map ProphetModel.clipRow).filter (fun r => lastDate ≤ r.ds)),
      0 ≤ a.low ∧ 0 ≤ a.avg ∧ 0 ≤ a.high) := by
  constructor
  · intro h1 h2
    simp only [ProphetModel.prophetTables] at h1 ⊢
    cases hlast : (ProphetModel.aggActualTbl periodOf actualRows).getLast? with
    | none => exact absurd (List.getLast?_eq_none_iff.mp hlast) h1
    | some la =>
      cases hfc : ProphetModel.aggForecastTbl periodOf
          ((fcRows.map ProphetModel.clipRow).filter
            (fun r => lastDate ≤ r.ds)) with
      | nil => exact absurd hfc h2
      | cons f0 fs =>
        refine ⟨la, rfl, ?_⟩
        simp only [ProphetModel.smoothJoin, hlast, hfc]
        exact ⟨rfl, rfl, rfl, rfl⟩
  · intro a ha
    apply aggForecastTbl_nonneg periodOf _ _ a ha
    intro r hr
    obtain ⟨r0, _, rfl⟩ := List.mem_map.mp (List.mem_filter.mp hr).1
    exact ⟨le_max_right _ _, le_max_right _ _, le_max_right _ _⟩

/-- C10 witness: one actual row averaging 7 and one forecast row with a
negative lower bound: the lower bound is clipped to 0 before aggregation,
and the single forecast row is overwritten to join the actuals at 7. -/
theorem claim_C10_forecast_join_and_clip_witness :
    (∃ la,
      (ProphetModel.prophetTables (fun d => d) [(0, 7)] [⟨0, 5, -1, 6⟩]
          0).1.getLast? = some la ∧
      (ProphetModel.prophetTables (fun d => d) [(0, 7)] [⟨0, 5, -1, 6⟩]
          0).2.head?.map ProphetModel.AggRow.low = some la.avg ∧
      (ProphetModel.prophetTables (fun d => d) [(0, 7)] [⟨0, 5, -1, 6⟩]
          0).2.head?.map ProphetModel.AggRow.avg = some la.avg ∧
      (ProphetModel.prophetTables (fun d => d) [(0, 7)] [⟨0, 5, -1, 6⟩]
          0).2.head?.map ProphetModel.AggRow.high = some la.avg ∧
      (ProphetModel.prophetTables (fun d => d) [(0, 7)] [⟨0, 5, -1, 6⟩]
          0).2.tail =
        (ProphetModel.aggForecastTbl (fun d => d)
          ((([⟨0, 5, -1, 6⟩] : List ProphetModel.FRow).map
              ProphetModel.clipRow).filter (fun r => (0 : Int) ≤ r.ds))).tail) ∧
    (∀ a ∈ ProphetModel.aggForecastTbl (fun d => d)
        ((([⟨0, 5, -1, 6⟩] : List ProphetModel.FRow).map
            ProphetModel.clipRow).filter (fun r => (0 : Int) ≤ r.ds)),
      0 ≤ a.low ∧ 0 ≤ a.avg ∧ 0 ≤ a.high) :=
  ⟨(claim_C10_forecast_join_and_clip (fun d => d) [(0, 7)] [⟨0, 5, -1, 6⟩] 0).1
      (by
        simp [ProphetModel.prophetTables, ProphetModel.aggActualTbl])
      (by
        simp [ProphetModel.aggForecastTbl, ProphetModel.chunkByPeriod,
          ProphetModel.spanPeriod, ProphetModel.aggOfChunk,
          ProphetModel.clipRow]),
   (claim_C10_forecast_join_and_clip (fun d => d) [(0, 7)] [⟨0, 5, -1, 6⟩] 0).2⟩
